import Mathlib

/-!
Verification development for the observation encoding/decoding protocol and
tool-execution fallback layer of the financial-chat repository.

The Python source is shallowly embedded over `List Char`:

* `render_visualization` (src/app/ui.py) becomes a pure function from the
  observation string to an `Except`-wrapped list of sink events plus the
  residual text; Python exceptions that the source catches become branches,
  the one it does not catch (the CHART extraction) becomes `Except.error`.
* `wrap_dataframe` and `handle_tool_error` (src/app/tools/utils.py) become
  pure functions over the serialization outcome / the tool-call batch.
* Python's string operations `in`, `str.index`, slicing, `str.replace` and
  `str.strip` are modelled character-exactly by `findSub`, `findSubFrom`,
  `slice`, `replaceAll` and `pyStrip` below.
-/

namespace FinChat

/-- A Python string, modelled as its list of characters. -/
abbrev Str := List Char

/-- Coerce a Lean string literal into the `List Char` model. -/
def lc (s : String) : Str := s.toList

/-- Model of Python `haystack.index(pat)` restricted to found/not-found:
first index at which `pat` occurs as a substring of `s`, if any. -/
def findSub (pat : Str) (s : Str) : Option Nat :=
  if pat.isPrefixOf s then some 0
  else
    match s with
    | [] => none
    | _ :: t => (findSub pat t).map (· + 1)

/-- Model of Python `haystack.index(pat, start)`: first index `≥ start`
at which `pat` occurs in `s`, if any. -/
def findSubFrom (pat : Str) (start : Nat) (s : Str) : Option Nat :=
  (findSub pat (s.drop start)).map (· + start)

/-- Model of Python `pat in s`. -/
def containsSub (pat : Str) (s : Str) : Bool :=
  (findSub pat s).isSome

/-- Model of Python slicing `s[a:b]` (for `a ≤ b`). -/
def slice (s : Str) (a b : Nat) : Str :=
  (s.drop a).take (b - a)

/-- Fuelled worker for `replaceAll`; the fuel only makes the recursion
structural and is always called with at least the length of the string. -/
def replaceAllFuel : Nat → Str → Str → Str
  | 0, s, _ => s
  | _ + 1, [], _ => []
  | fuel + 1, c :: t, pat =>
    if pat.isPrefixOf (c :: t) ∧ pat ≠ [] then
      replaceAllFuel fuel (t.drop (pat.length - 1)) pat
    else c :: replaceAllFuel fuel t pat

/-- Model of Python `s.replace(pat, "")` for non-empty `pat`: delete every
(left-to-right, non-overlapping) occurrence of `pat` in `s`. -/
def replaceAll (s : Str) (pat : Str) : Str :=
  replaceAllFuel s.length s pat

/-- Number of start positions at which `pat` occurs in `s`. -/
def countSub (pat : Str) (s : Str) : Nat :=
  match s with
  | [] => 0
  | _ :: t => (if pat.isPrefixOf s then 1 else 0) + countSub pat t

/-- The characters Python `str.strip()` removes. -/
def isPySpace (c : Char) : Bool :=
  c = ' ' || c = '\t' || c = '\n' || c = '\r' || c = '\x0b' || c = '\x0c'

/-- Model of Python `s.strip()`. -/
def pyStrip (s : Str) : Str :=
  ((s.dropWhile isPySpace).reverse.dropWhile isPySpace).reverse

/-! ## Base64 decoding

Model of `base64.b64decode` as used by the CHART branch of
`render_visualization` (src/app/ui.py line 88): characters outside the
base-64 alphabet and `=` are discarded, the padding is checked, and the
remaining sextets are packed into bytes.  `none` models the
`binascii.Error` the library raises on bad padding. -/

/-- The standard base-64 alphabet, in value order. -/
def b64Alphabet : Str :=
  lc "ABCDEFGHIJKLMNOPQRSTUVWXYZabcdefghijklmnopqrstuvwxyz0123456789+/"

def isB64Char (c : Char) : Bool := b64Alphabet.contains c

/-- Value of a base-64 alphabet character. -/
def b64Val (c : Char) : Nat := b64Alphabet.indexOf c

/-- Pack a list of sextet values into bytes (3 bytes per 4 sextets, with the
usual truncation for a final group of 2 or 3). -/
def bytesOfSextets : List Nat → List Nat
  | a :: b :: c :: d :: rest =>
      (a * 4 + b / 16) :: ((b % 16) * 16 + c / 4) :: ((c % 4) * 64 + d) ::
        bytesOfSextets rest
  | [a, b] => [a * 4 + b / 16]
  | [a, b, c] => [a * 4 + b / 16, (b % 16) * 16 + c / 4]
  | _ => []

/-- Model of Python `base64.b64decode(s)` (with the default
`validate=False`). -/
def b64decode (s : Str) : Option (List Nat) :=
  let kept := s.filter (fun c => isB64Char c || c = '=')
  let body := kept.takeWhile (fun c => c ≠ '=')
  let pads := kept.drop body.length
  if kept.length % 4 = 0 ∧ pads.length ≤ 2 ∧ pads.all (fun c => c = '=') then
    some (bytesOfSextets (body.map b64Val))
  else
    none

/-! ## The Table payload codec

Modelled from the spec: in the source the Table payload codec is
`pandas.DataFrame.to_json` (called by `wrap_dataframe`,
src/app/tools/utils.py line 26) and `pandas.read_json` (called by
`render_visualization`, src/app/ui.py line 120) — pandas library code not
contained in this repository.  Following §3/§4.1 of the spec the payload is
a column-labelled grid of scalar cells (number / string / null) that
round-trips through a nested-JSON-object text encoding with key order
preserved, numbers carrying at most ten decimal places
(pandas' `double_precision=10`). -/

/-- A scalar table cell.  `num m e` denotes the decimal `m / 10 ^ e`. -/
inductive Cell where
  | num (m : Int) (e : Nat)
  | str (s : Str)
  | null
deriving DecidableEq

/-- A decoded Table payload: ordered labelled columns of labelled cells,
mirroring the `{column: {row: value}}` JSON shape pandas emits. -/
abbrev Table := List (Str × List (Str × Cell))

/-- Character of a single decimal digit value. -/
def digChar (d : Nat) : Char := Char.ofNat (48 + d)

/-- Decimal digit value of a character. -/
def digVal (c : Char) : Nat := c.toNat - 48

/-- Big-endian digit values of `n`, padded with leading zeros to at least
`w` digits. -/
def padDigits (n w : Nat) : List Nat :=
  ((Nat.digits 10 n) ++ List.replicate (w - (Nat.digits 10 n).length) 0).reverse

/-- The unsigned body of a printed number: the integer digits and (for
`e ≠ 0`) a dot followed by exactly `e` fractional digits. -/
def printBody (n e : Nat) : Str :=
  let ds := padDigits n (e + 1)
  if e = 0 then ds.map digChar
  else (ds.take (ds.length - e)).map digChar ++ '.' :: (ds.drop (ds.length - e)).map digChar

/-- Print the decimal `m / 10 ^ e` the way `to_json` prints numbers:
an optional sign, the integer digits, and (for `e ≠ 0`) exactly `e`
fractional digits. -/
def printNum (m : Int) (e : Nat) : Str :=
  if m < 0 then '-' :: printBody m.natAbs e else printBody m.natAbs e

/-- Print one cell as JSON. -/
def printCell : Cell → Str
  | .num m e => printNum m e
  | .str s => '"' :: s ++ ['"']
  | .null => lc "null"

/-- Print the entries of a JSON object given printed values, without the
enclosing braces: `"k":v,"k":v`. -/
def printEntries : List (Str × Str) → Str
  | [] => []
  | [(k, v)] => '"' :: k ++ '"' :: ':' :: v
  | (k, v) :: rest => '"' :: k ++ '"' :: ':' :: v ++ ',' :: printEntries rest

/-- Print a JSON object from printed entry values. -/
def printObj (entries : List (Str × Str)) : Str :=
  '\x7b' :: printEntries entries ++ ['\x7d']

/-- Modelled from the spec: `df.to_json()` — serialize a Table payload to
its column-oriented JSON text. -/
def to_json (t : Table) : Str :=
  printObj (t.map (fun col => (col.1, printObj (col.2.map (fun r => (r.1, printCell r.2))))))

/-- Parse a JSON string literal (no escape sequences, as none are emitted
for valid payloads): `"name"` followed by the rest. -/
def parseStrLit (s : Str) : Option (Str × Str) :=
  if s.head? = some '"' then
    let rest := (s.drop 1).dropWhile (fun c => c ≠ '"')
    if rest.head? = some '"' then
      some ((s.drop 1).takeWhile (fun c => c ≠ '"'), rest.drop 1)
    else none
  else none

/-- Numeric value of a big-endian list of digit characters. -/
def natOfDigitChars (ds : Str) : Nat :=
  Nat.ofDigits 10 (ds.map digVal).reverse

/-- Parse the digit part of a JSON number after the optional sign. -/
def parseNumAfterSign (neg : Bool) (s1 : Str) : Option (Cell × Str) :=
  let ds1 := s1.takeWhile (fun c => c.isDigit)
  let r1 := s1.dropWhile (fun c => c.isDigit)
  if ds1 = [] then none
  else if r1.head? = some '.' then
    let ds2 := (r1.drop 1).takeWhile (fun c => c.isDigit)
    let r3 := (r1.drop 1).dropWhile (fun c => c.isDigit)
    if ds2 = [] then none
    else
      some (.num (if neg then -(natOfDigitChars (ds1 ++ ds2) : Int)
                  else (natOfDigitChars (ds1 ++ ds2) : Int)) ds2.length, r3)
  else
    some (.num (if neg then -(natOfDigitChars ds1 : Int)
                else (natOfDigitChars ds1 : Int)) 0, r1)

/-- Parse a JSON number `-?digits(.digits)?` into a `Cell.num`. -/
def parseNum (s : Str) : Option (Cell × Str) :=
  let neg : Bool := decide (s.head? = some '-')
  parseNumAfterSign neg (if neg then s.drop 1 else s)

/-- Parse one scalar cell. -/
def parseCell (s : Str) : Option (Cell × Str) :=
  if s.head? = some '"' then (parseStrLit s).map (fun kv => (Cell.str kv.1, kv.2))
  else if s.head? = some 'n' then
    if (lc "ull").isPrefixOf (s.drop 1) then some (.null, s.drop 4) else none
  else parseNum s

/-- Parse the entry list of a JSON object (after the opening brace of a
non-empty object), using `pv` for values; consumes the closing brace. -/
def parseEntriesAux (pv : Str → Option (α × Str)) : Nat → Str → Option (List (Str × α) × Str)
  | 0, _ => none
  | fuel + 1, s =>
    (parseStrLit s).bind fun ks =>
      if ks.2.head? = some ':' then
        (pv (ks.2.drop 1)).bind fun vs =>
          if vs.2.head? = some ',' then
            (parseEntriesAux pv fuel (vs.2.drop 1)).map
              (fun er => ((ks.1, vs.1) :: er.1, er.2))
          else if vs.2.head? = some '\x7d' then
            some ([(ks.1, vs.1)], vs.2.drop 1)
          else none
      else none

/-- Parse a JSON object with values parsed by `pv`. -/
def parseObj (pv : Str → Option (α × Str)) (fuel : Nat) (s : Str) :
    Option (List (Str × α) × Str) :=
  if s.head? = some '\x7b' then
    if (s.drop 1).head? = some '\x7d' then some ([], s.drop 2)
    else parseEntriesAux pv fuel (s.drop 1)
  else none

/-- Parse one column object (row label to cell). -/
def parseInnerObj (fuel : Nat) (s : Str) : Option (List (Str × Cell) × Str) :=
  parseObj parseCell fuel s

/-- Modelled from the spec: `pd.read_json(s)` — deserialize a column-oriented
JSON text into a Table payload; `none` models the `ValueError` pandas raises
on text that is not a well-formed object-of-objects-of-scalars. -/
def read_json (s : Str) : Option Table :=
  match parseObj (parseInnerObj (s.length + 1)) (s.length + 1) s with
  | some (t, []) => some t
  | _ => none

/-- Validity of one cell for the codec round-trip (§4.1 of the spec):
numbers carry at most ten decimal places (pandas `double_precision=10`),
strings contain no quote (no escaping in the encoding). -/
def CellValid : Cell → Prop
  | .num _ e => e ≤ 10
  | .str s => '"' ∉ s
  | .null => True

instance : DecidablePred CellValid := fun c =>
  match c with
  | .num _ e => inferInstanceAs (Decidable (e ≤ 10))
  | .str s => inferInstanceAs (Decidable ('"' ∉ s))
  | .null => inferInstanceAs (Decidable True)

/-- Validity of a Table payload (§3 of the spec): quote-free labels,
unique column labels, unique row keys per column, valid cells. -/
def TableValid (t : Table) : Prop :=
  (∀ col ∈ t, '"' ∉ col.1 ∧ ∀ rc ∈ col.2, '"' ∉ rc.1 ∧ CellValid rc.2) ∧
  (t.map (fun col => col.1)).Nodup ∧
  ∀ col ∈ t, (col.2.map (fun rc => rc.1)).Nodup

instance : DecidablePred TableValid := fun t =>
  inferInstanceAs (Decidable (_ ∧ _ ∧ _))

/-! ## The Marker Extractor/Dispatcher: `render_visualization`

Shallow embedding of `render_visualization` (src/app/ui.py lines 70-130).
The Streamlit calls become sink events:

* `answer_container.image(...)`         becomes `Event.onChart`,
* `eval(plotly_config)`                 becomes `Event.pyRunCode` — the
  source passes the extracted payload to Python `eval` (line 104),
* `answer_container.plotly_chart(...)`  becomes `Event.onFigure`,
* `answer_container.dataframe(...)`     becomes `Event.onTable`,
* `answer_container.write(...)`         becomes `Event.onText`,
* `st.error(...)`                       becomes `Event.stShowError`.

Python `eval` itself cannot be embedded; whether `go.Figure(eval(cfg))`
succeeds is abstracted as an oracle `evalOk : Str → Bool` threaded through
the model.  The `content.index` call of the CHART branch sits outside the
`try` block in the source, so its failure is `Except.error`; the PLOTLY and
TABLE branches do the extraction inside `try`, so their failures become
`stShowError` events. -/

inductive Kind where
  | chart
  | figure
  | table
deriving DecidableEq

/-- The opening token of each marker kind (§6 of the spec). -/
def opener : Kind → Str
  | .chart => lc "[CHART:"
  | .figure => lc "[PLOTLY:"
  | .table => lc "[TABLE:"

inductive Event where
  | onChart (bytes : List Nat)
  | pyRunCode (code : Str)
  | onFigure (config : Str)
  | onTable (t : Table)
  | onText (text : Str)
  | stShowError (tag : Str)
deriving DecidableEq

/-- Result of one `if "[KIND:" in content and "]" in content:` branch's
extraction attempt. -/
inductive Scan where
  | noMarker
  | noCloser
  | found (payload : Str) (stripped : Str)
deriving DecidableEq

/-- The common extraction pattern of all three branches: guard on
`"[KIND:" in content and "]" in content`, locate the opening token, take
the text up to the first `]` after it, and delete every occurrence of the
full marker string (`content.replace(f"[KIND:{payload}]", "")`). -/
def scanFor (k : Kind) (content : Str) : Scan :=
  match findSub (opener k) content, findSub [']'] content with
  | some i, some _ =>
    match findSubFrom [']'] (i + (opener k).length) content with
    | none => .noCloser
    | some e =>
      let payload := slice content (i + (opener k).length) e
      .found payload (replaceAll content (opener k ++ payload ++ [']']))
  | _, _ => .noMarker

/-- CHART branch (ui.py lines 80-94).  The extraction is outside `try`, so
a missing `]` after the opening token raises an uncaught `ValueError`;
`base64.b64decode` failure is caught and reported via `st.error` without
stripping the marker. -/
def chartStep (content : Str) : Except Unit (Str × List Event) :=
  match scanFor .chart content with
  | .noMarker => .ok (content, [])
  | .noCloser => .error ()
  | .found payload stripped =>
    match b64decode payload with
    | none => .ok (content, [.stShowError (lc "Error rendering chart")])
    | some bytes => .ok (stripped, [.onChart bytes])

/-- PLOTLY branch (ui.py lines 97-110).  Everything is inside `try`; the
payload is passed to `eval` and on success rendered via `plotly_chart`. -/
def plotlyStep (evalOk : Str → Bool) (content : Str) : Str × List Event :=
  match scanFor .figure content with
  | .noMarker => (content, [])
  | .noCloser => (content, [.stShowError (lc "Error rendering Plotly chart")])
  | .found payload stripped =>
    if evalOk payload then
      (stripped, [.pyRunCode payload, .onFigure payload])
    else
      (content, [.pyRunCode payload, .stShowError (lc "Error rendering Plotly chart")])

/-- TABLE branch (ui.py lines 113-126).  Everything is inside `try`; the
payload is decoded with `pd.read_json`. -/
def tableStep (content : Str) : Str × List Event :=
  match scanFor .table content with
  | .noMarker => (content, [])
  | .noCloser => (content, [.stShowError (lc "Error rendering table")])
  | .found payload stripped =>
    match read_json payload with
    | none => (content, [.stShowError (lc "Error rendering table")])
    | some t => (stripped, [.onTable t])

/-- Final `if content.strip(): answer_container.write(content)`
(ui.py lines 129-130). -/
def textStep (content : Str) : List Event :=
  if pyStrip content = [] then [] else [.onText content]

/-- `render_visualization(content, answer_container)` (ui.py lines 70-130):
the three marker branches in source order, then the residual-text write.
Returns the emitted sink events and the final residual text, or
`Except.error` for the uncaught `ValueError` of the CHART branch. -/
def render_visualization (evalOk : Str → Bool) (content : Str) :
    Except Unit (List Event × Str) :=
  match chartStep content with
  | .error () => .error ()
  | .ok (c1, e1) =>
    let pr := plotlyStep evalOk c1
    let tr := tableStep pr.1
    .ok (e1 ++ pr.2 ++ tr.2 ++ textStep tr.1, tr.1)

/-- Events of a render outcome (an uncaught exception shows nothing). -/
def eventsOf (r : Except Unit (List Event × Str)) : List Event :=
  match r with
  | .error () => []
  | .ok (es, _) => es

/-- The kinds of the payload-sink invocations among a list of events, in
invocation order (`onText` and diagnostics are not payload sinks). -/
def handlerKinds (es : List Event) : List Kind :=
  es.filterMap fun e =>
    match e with
    | .onChart _ => some .chart
    | .onFigure _ => some .figure
    | .onTable _ => some .table
    | _ => none

/-- An `eval` oracle under which every figure payload evaluates. -/
def evalAlways : Str → Bool := fun _ => true

/-! ## Structured observations

An observation "containing exactly one Chart, one Figure and one Table
marker in arbitrary document order" (§8 of the spec) is formalized as the
flattening of a list of items — plain-text runs interleaved with markers —
whose texts and payloads contain no delimiter characters. -/

/-- One syntactic constituent of an observation string. -/
inductive Item where
  | text (s : Str)
  | marker (k : Kind) (payload : Str)
deriving DecidableEq

/-- Flatten items into the observation string: each marker becomes
`[KIND:payload]`. -/
def flat : List Item → Str
  | [] => []
  | .text s :: rest => s ++ flat rest
  | .marker k p :: rest => opener k ++ (p ++ ']' :: flat rest)

/-- Free of the reserved delimiter characters. -/
def bracketFree (s : Str) : Prop := '[' ∉ s ∧ ']' ∉ s

instance : DecidablePred bracketFree := fun s =>
  inferInstanceAs (Decidable (_ ∧ _))

/-- Well-formedness of one item: its text or payload is delimiter-free. -/
def ItemWF : Item → Prop
  | .text s => bracketFree s
  | .marker _ p => bracketFree p

instance : DecidablePred ItemWF := fun i =>
  match i with
  | .text s => inferInstanceAs (Decidable (bracketFree s))
  | .marker _ p => inferInstanceAs (Decidable (bracketFree p))

/-- Well-formedness of a whole observation. -/
def ItemsWF (items : List Item) : Prop := ∀ i ∈ items, ItemWF i

instance (items : List Item) : Decidable (ItemsWF items) :=
  inferInstanceAs (Decidable (∀ i ∈ items, ItemWF i))

/-- Recognizer for markers of a given kind. -/
def isMarkerK (k : Kind) : Item → Bool
  | .marker k' _ => k' = k
  | _ => false

/-- Number of markers of a kind among the items. -/
def countKind (k : Kind) (items : List Item) : Nat := items.countP (isMarkerK k)

/-! ## The Marker Embedder and tool wrappers -/

/-- `wrap_dataframe(df)` (src/app/tools/utils.py lines 12-29).  The input
is the outcome of `df.to_json()`: `Except.ok` carries the JSON text,
`Except.error` the exception message of a failed serialization. -/
def wrap_dataframe (ser : Except Str Str) : Str :=
  match ser with
  | .ok dfJson =>
    lc "\n<observation>\n[TABLE:" ++ dfJson ++ lc "]\n</observation>\n"
  | .error e =>
    lc "\n<observation>Error converting DataFrame: " ++ e ++ lc "\n</observation>\n"

/-- The PLOTLY marker built by `get_stock_chart_analysis`
(src/app/tools/stock_charts.py line 26): `f"[PLOTLY:{repr(...)}]"`, with
`p` standing for the `repr` of the Plotly figure configuration.  No
escaping or length prefix is applied to `p`. -/
def plotlyMarker (p : Str) : Str := lc "[PLOTLY:" ++ p ++ [']']

/-- The CHART marker built by `get_stock_chart_analysis`
(src/app/tools/stock_charts.py line 22). -/
def chartMarker (b : Str) : Str := lc "[CHART:" ++ b ++ [']']

/-! ## The Tool Fallback Interceptor

`handle_tool_error` (src/app/tools/utils.py lines 52-63) and its wiring
`create_tool_node_with_fallback` (lines 66-69). -/

structure ToolCall where
  id : Str
deriving DecidableEq

structure ToolMessage where
  content : Str
  tool_call_id : Str
deriving DecidableEq

/-- `handle_tool_error(state)`: builds one `ToolMessage` carrying the error
text for EVERY tool call of the last message, not only the failing one. -/
def handle_tool_error (error : Str) (tool_calls : List ToolCall) : List ToolMessage :=
  tool_calls.map fun tc =>
    { content := lc "Error: " ++ error ++ lc "\n please fix your mistakes."
      tool_call_id := tc.id }

/-- Modelled from the spec: `ToolNode(tools).with_fallbacks([RunnableLambda(
handle_tool_error)], exception_key="error")` — the langgraph wiring is
external library code.  The node runs the batch; if any tool call raises,
the whole node fails over and its entire output is replaced by
`handle_tool_error` applied to the raised error and the full batch;
otherwise each call's Observation is returned keyed by its id. -/
def tool_node_with_fallback (run : ToolCall → Except Str Str)
    (calls : List ToolCall) : List ToolMessage :=
  match calls.findSome? (fun tc => match run tc with
    | .error e => some e
    | .ok _ => none) with
  | some e => handle_tool_error e calls
  | none =>
    calls.map fun tc =>
      { content := match run tc with
          | .ok obs => obs
          | .error e => e
        tool_call_id := tc.id }

/-! ## Concrete render inputs used by several theorems -/

/-- The end-to-end example observation of §8 of the spec. -/
def exampleObservation : Str :=
  lc "\n<observation>\n[TABLE:\x7b\"0\":\x7b\"close\":150.2\x7d\x7d]\n</observation>\n"

/-- The decoded table of the end-to-end example: one outer key `0` whose
object holds `close ↦ 150.2`. -/
def exampleTable : Table := [(lc "0", [(lc "close", Cell.num 1502 1)])]

/-- The residual of rendering `exampleObservation`: the observation framing
tags survive, only the marker is stripped. -/
def exampleResidual : Str := lc "\n<observation>\n\n</observation>\n"

/-- A three-call batch in which only the middle call raises. -/
def c2Calls : List ToolCall := [⟨lc "call_a"⟩, ⟨lc "call_b"⟩, ⟨lc "call_c"⟩]

/-- The run function of the batch: `call_b` raises `boom`, the others
succeed with an observation. -/
def c2Run : ToolCall → Except Str Str := fun tc =>
  if tc.id = lc "call_b" then .error (lc "boom") else .ok (lc "result data")

/-- A concrete two-column price table used as the codec witness. -/
def c8Table : Table :=
  [(lc "close", [(lc "2024-01-02", .num 1502 1), (lc "2024-01-03", .num (-37) 2)]),
   (lc "volume", [(lc "2024-01-02", .num 1000000 0), (lc "2024-01-03", .null)])]

/-- Recognizer for chart-sink events. -/
def isOnChart : Event → Bool
  | .onChart _ => true
  | _ => false

/-- Recognizer for figure-sink events. -/
def isOnFigure : Event → Bool
  | .onFigure _ => true
  | _ => false

/-- Recognizer for table-sink events. -/
def isOnTable : Event → Bool
  | .onTable _ => true
  | _ => false

/-! # Supporting lemmas -/

theorem isPrefixOf_append_self (a b : Str) : a.isPrefixOf (a ++ b) = true := by
  simp [List.isPrefixOf_iff_prefix]

theorem isPrefixOf_cons_ne {c d : Char} {q s : Str} (h : c ≠ d) :
    (c :: q).isPrefixOf (d :: s) = false := by
  simp [List.isPrefixOf_cons₂, h]

theorem isPrefixOf_take_ne {pat a : Str} (b : Str) (hlen : pat.length ≤ a.length)
    (hne : pat ≠ a.take pat.length) : pat.isPrefixOf (a ++ b) = false := by
  rw [Bool.eq_false_iff]
  intro h
  rw [List.isPrefixOf_iff_prefix, List.prefix_iff_eq_take,
    List.take_append_of_le_length hlen] at h
  exact hne h

theorem countSub_cons (pat : Str) (c : Char) (t : Str) :
    countSub pat (c :: t) = (if pat.isPrefixOf (c :: t) then 1 else 0) + countSub pat t := by
  rfl

/-- A pattern starting with `c` occurs nowhere inside text free of `c`. -/
theorem countSub_append_free {c : Char} {q : Str} {a : Str} (b : Str) (ha : c ∉ a) :
    countSub (c :: q) (a ++ b) = countSub (c :: q) b := by
  induction a with
  | nil => rfl
  | cons d a ih =>
    have hcd : c ≠ d := fun h => ha (h ▸ List.mem_cons_self d a)
    have ha' : c ∉ a := fun h => ha (List.mem_cons_of_mem d h)
    rw [List.cons_append, countSub_cons, isPrefixOf_cons_ne hcd, if_neg (by simp), ih ha',
      Nat.zero_add]

theorem countSub_free {c : Char} {q : Str} {a : Str} (ha : c ∉ a) :
    countSub (c :: q) a = 0 := by
  have := countSub_append_free (c := c) (q := q) [] ha
  rwa [List.append_nil] at this

/-- A `c`-headed pattern occurs exactly once in `a ++ pat ++ b` when `a`,
the pattern tail and `b` are `c`-free. -/
theorem countSub_once {c : Char} {q a b : Str} (ha : c ∉ a) (hq : c ∉ q) (hb : c ∉ b) :
    countSub (c :: q) (a ++ (c :: q) ++ b) = 1 := by
  rw [List.append_assoc, countSub_append_free _ ha, List.cons_append, countSub_cons]
  have h1 : (c :: q).isPrefixOf (c :: (q ++ b)) = true := isPrefixOf_append_self (c :: q) b
  rw [h1, if_pos rfl, countSub_append_free _ hq, countSub_free hb]

/-! ## Digit, number and JSON-string lemmas for the codec round-trip -/

theorem digVal_digChar : ∀ d < 10, digVal (digChar d) = d := by decide

theorem digChar_isDigit : ∀ d < 10, (digChar d).isDigit = true := by decide

theorem digChar_props :
    ∀ d < 10, digChar d ≠ '-' ∧ digChar d ≠ '.' ∧ digChar d ≠ '"' ∧ digChar d ≠ 'n' := by
  decide

/-- `takeWhile`/`dropWhile` split an append exactly at the first failing
character. -/
theorem takeWhile_append_split {p : Char → Bool} {a b : Str}
    (ha : ∀ c ∈ a, p c = true) (hb : ∀ c, b.head? = some c → p c = false) :
    (a ++ b).takeWhile p = a ∧ (a ++ b).dropWhile p = b := by
  induction a with
  | nil =>
    cases b with
    | nil => simp
    | cons c t =>
      have hc := hb c rfl
      simp [List.takeWhile_cons, List.dropWhile_cons, hc]
  | cons c a ih =>
    have hc := ha c (List.mem_cons_self c a)
    obtain ⟨ih1, ih2⟩ := ih (fun x hx => ha x (List.mem_cons_of_mem c hx))
    simp [List.takeWhile_cons, List.dropWhile_cons, hc, ih1, ih2]

theorem ofDigits_replicate_zero (k : Nat) :
    Nat.ofDigits 10 (List.replicate k 0) = 0 := by
  induction k with
  | zero => rfl
  | succ k ih => simp [List.replicate_succ, Nat.ofDigits_cons, ih]

theorem padDigits_lt (n w : Nat) : ∀ d ∈ padDigits n w, d < 10 := by
  intro d hd
  rw [padDigits, List.mem_reverse] at hd
  rcases List.mem_append.mp hd with h | h
  · exact Nat.digits_lt_base (by omega) h
  · rw [List.eq_of_mem_replicate h]; omega

theorem padDigits_length (n w : Nat) :
    (padDigits n w).length = max w (Nat.digits 10 n).length := by
  simp [padDigits]
  omega

theorem padDigits_value (n w : Nat) :
    Nat.ofDigits 10 (padDigits n w).reverse = n := by
  rw [padDigits, List.reverse_reverse, Nat.ofDigits_append, Nat.ofDigits_digits,
    ofDigits_replicate_zero]
  simp

theorem natOfDigitChars_map {ds : List Nat} (h : ∀ d ∈ ds, d < 10) :
    natOfDigitChars (ds.map digChar) = Nat.ofDigits 10 ds.reverse := by
  rw [natOfDigitChars, List.map_map]
  congr 2
  calc ds.map (digVal ∘ digChar)
      = ds.map id := List.map_congr_left (fun d hd => digVal_digChar d (h d hd))
    _ = ds := List.map_id ds

theorem natOfDigitChars_pad (n w : Nat) :
    natOfDigitChars ((padDigits n w).map digChar) = n := by
  rw [natOfDigitChars_map (padDigits_lt n w), padDigits_value]

/-- Every character of a printed digit block is a digit character. -/
theorem printDigits_isDigit (ds : List Nat) (h : ∀ d ∈ ds, d < 10) :
    ∀ c ∈ ds.map digChar, c.isDigit = true := by
  intro c hc
  obtain ⟨d, hd, rfl⟩ := List.mem_map.mp hc
  exact digChar_isDigit d (h d hd)

/-- A printed number body starts with a digit character. -/
theorem printBody_head (n e : Nat) :
    ∃ d u, d < 10 ∧ printBody n e = digChar d :: u := by
  have hlen : e + 1 ≤ (padDigits n (e + 1)).length := by
    rw [padDigits_length]; omega
  have hdlt := padDigits_lt n (e + 1)
  rcases hds : padDigits n (e + 1) with _ | ⟨d0, ds'⟩
  · rw [hds] at hlen; simp at hlen
  · have hd0 : d0 < 10 := by
      apply hdlt; rw [hds]; exact List.mem_cons_self d0 ds'
    by_cases he : e = 0
    · subst he
      exact ⟨d0, ds'.map digChar, hd0, by simp [printBody, hds]⟩
    · rw [hds] at hlen
      have hk : ∃ k', (d0 :: ds').length - e = k' + 1 := by
        simp only [List.length_cons]
        simp only [List.length_cons] at hlen
        exact ⟨ds'.length - e, by omega⟩
      obtain ⟨k', hk⟩ := hk
      refine ⟨d0, (ds'.take k').map digChar ++
        '.' :: ((d0 :: ds').drop ((d0 :: ds').length - e)).map digChar, hd0, ?_⟩
      simp only [printBody, hds, if_neg he, hk, List.take_succ_cons, List.map_cons,
        List.cons_append]

/-- Parsing the printed unsigned body of a number recovers its value and
scale, for any sign flag and any rest that does not begin with a digit or
a dot. -/
theorem parseNumAfterSign_print (n e : Nat) (neg : Bool) (r : Str)
    (hr : ∀ c, r.head? = some c → c.isDigit = false ∧ c ≠ '.') :
    parseNumAfterSign neg (printBody n e ++ r) =
      some (.num (if neg then -(n : Int) else (n : Int)) e, r) := by
  have hrd : ∀ c, r.head? = some c → (fun c => c.isDigit) c = false :=
    fun c h => (hr c h).1
  have hdlt := padDigits_lt n (e + 1)
  have hlen : e + 1 ≤ (padDigits n (e + 1)).length := by
    rw [padDigits_length]; omega
  by_cases he : e = 0
  · subst he
    have hbody : printBody n 0 = (padDigits n 1).map digChar := by
      simp [printBody]
    obtain ⟨ht, hd⟩ := takeWhile_append_split
      (a := (padDigits n 1).map digChar) (b := r)
      (printDigits_isDigit _ hdlt) hrd
    have hne : ¬ ((padDigits n 1).map digChar = []) := by
      intro h
      have := congrArg List.length h
      simp [padDigits_length] at this
    have hdot : ¬ (r.head? = some '.') := by
      intro hc
      rcases r with _ | ⟨c, r'⟩
      · simp at hc
      · simp only [List.head?_cons, Option.some.injEq] at hc
        exact (hr c rfl).2 hc
    rw [hbody]
    simp only [parseNumAfterSign, ht, hd, if_neg hne, if_neg hdot, natOfDigitChars_pad]
  · have hbody : printBody n e =
        ((padDigits n (e + 1)).take ((padDigits n (e + 1)).length - e)).map digChar ++
          '.' :: ((padDigits n (e + 1)).drop ((padDigits n (e + 1)).length - e)).map digChar := by
      simp [printBody, he]
    have hinput : printBody n e ++ r =
        ((padDigits n (e + 1)).take ((padDigits n (e + 1)).length - e)).map digChar ++
          ('.' :: (((padDigits n (e + 1)).drop ((padDigits n (e + 1)).length - e)).map digChar
            ++ r)) := by
      rw [hbody]
      simp [List.append_assoc]
    obtain ⟨ht1, hd1⟩ := takeWhile_append_split
      (a := ((padDigits n (e + 1)).take ((padDigits n (e + 1)).length - e)).map digChar)
      (b := '.' :: (((padDigits n (e + 1)).drop ((padDigits n (e + 1)).length - e)).map digChar
        ++ r))
      (printDigits_isDigit _ (fun d hd => hdlt d (List.take_subset _ _ hd)))
      (fun c hc => by
        simp only [List.head?_cons, Option.some.injEq] at hc
        subst hc
        rfl)
    obtain ⟨ht2, hd2⟩ := takeWhile_append_split
      (a := ((padDigits n (e + 1)).drop ((padDigits n (e + 1)).length - e)).map digChar)
      (b := r)
      (printDigits_isDigit _ (fun d hd => hdlt d (List.drop_subset _ _ hd))) hrd
    have hne1 : ¬ (((padDigits n (e + 1)).take ((padDigits n (e + 1)).length - e)).map digChar
        = []) := by
      intro h
      have := congrArg List.length h
      simp [List.length_take] at this
      omega
    have hne2 : ¬ (((padDigits n (e + 1)).drop ((padDigits n (e + 1)).length - e)).map digChar
        = []) := by
      intro h
      have := congrArg List.length h
      simp [List.length_drop] at this
      omega
    have hval : natOfDigitChars
        (((padDigits n (e + 1)).take ((padDigits n (e + 1)).length - e)).map digChar ++
          ((padDigits n (e + 1)).drop ((padDigits n (e + 1)).length - e)).map digChar) = n := by
      rw [← List.map_append, List.take_append_drop, natOfDigitChars_pad]
    have hexp : (((padDigits n (e + 1)).drop ((padDigits n (e + 1)).length - e)).map
        digChar).length = e := by
      simp [List.length_drop]
      omega
    rw [hinput]
    simp only [parseNumAfterSign, ht1, hd1, if_neg hne1, List.head?_cons, if_pos rfl,
      List.drop_succ_cons, List.drop_zero, ht2, hd2, if_neg hne2, hval, hexp]
    simp

/-- Parsing a printed number recovers the number. -/
theorem parseNum_printNum (m : Int) (e : Nat) (r : Str)
    (hr : ∀ c, r.head? = some c → c.isDigit = false ∧ c ≠ '.') :
    parseNum (printNum m e ++ r) = some (.num m e, r) := by
  by_cases hm : m < 0
  · have hp : printNum m e ++ r = '-' :: (printBody m.natAbs e ++ r) := by
      simp [printNum, hm]
    have hstep : parseNum ('-' :: (printBody m.natAbs e ++ r)) =
        parseNumAfterSign true (printBody m.natAbs e ++ r) := by
      simp [parseNum]
    rw [hp, hstep, parseNumAfterSign_print m.natAbs e true r hr, if_pos rfl,
      Int.ofNat_natAbs_of_nonpos (Int.le_of_lt hm), neg_neg]
  · have hp : printNum m e ++ r = printBody m.natAbs e ++ r := by
      simp [printNum, hm]
    obtain ⟨d, u, hd10, hu⟩ := printBody_head m.natAbs e
    have hneg : decide ((printBody m.natAbs e ++ r).head? = some '-') = false := by
      rw [hu]
      simp only [List.cons_append, List.head?_cons, decide_eq_false_iff_not,
        Option.some.injEq]
      exact (digChar_props d hd10).1
    have hstep : parseNum (printBody m.natAbs e ++ r) =
        parseNumAfterSign false (printBody m.natAbs e ++ r) := by
      simp only [parseNum, hneg, Bool.false_eq_true, if_false]
    rw [hp, hstep, parseNumAfterSign_print m.natAbs e false r hr, if_neg (by simp),
      Int.natAbs_of_nonneg (Int.not_lt.mp hm)]

/-- Parsing a printed JSON string literal recovers the name. -/
theorem parseStrLit_print (k r : Str) (hk : '"' ∉ k) :
    parseStrLit ('"' :: (k ++ '"' :: r)) = some (k, r) := by
  obtain ⟨ht, hd⟩ := takeWhile_append_split (p := fun c => decide (c ≠ '"'))
    (a := k) (b := '"' :: r)
    (fun c hc => decide_eq_true (fun h => hk (h ▸ hc)))
    (fun c hc => by
      simp only [List.head?_cons, Option.some.injEq] at hc
      subst hc
      rfl)
  simp only [parseStrLit, List.head?_cons, if_pos rfl, List.drop_succ_cons, List.drop_zero,
    ht, hd]
  simp

/-- Parsing a printed cell recovers the cell, for any rest that does not
begin with a digit or a dot. -/
theorem parseCell_print (c : Cell) (r : Str) (hc : CellValid c)
    (hr : ∀ x, r.head? = some x → x.isDigit = false ∧ x ≠ '.') :
    parseCell (printCell c ++ r) = some (c, r) := by
  cases c with
  | str s =>
    have hin : printCell (.str s) ++ r = '"' :: (s ++ '"' :: r) := by
      simp [printCell]
    rw [hin]
    simp only [parseCell, List.head?_cons, if_pos rfl]
    rw [parseStrLit_print s r hc]
    rfl
  | null =>
    have hin : printCell Cell.null ++ r = 'n' :: ('u' :: ('l' :: ('l' :: r))) := by
      simp [printCell, lc]
    rw [hin]
    have hpre : (lc "ull").isPrefixOf (List.drop 1 ('n' :: ('u' :: ('l' :: ('l' :: r))))) =
        true := isPrefixOf_append_self (lc "ull") r
    simp [parseCell, hpre]
    exact ⟨r, rfl⟩
  | num m e =>
    have hin : printCell (.num m e) ++ r = printNum m e ++ r := rfl
    obtain ⟨d, u, hd10, hu⟩ := printBody_head m.natAbs e
    have hhead : ∃ h0, (printNum m e ++ r).head? = some h0 ∧ h0 ≠ '"' ∧ h0 ≠ 'n' := by
      by_cases hm : m < 0
      · exact ⟨'-', by simp [printNum, hm], by decide, by decide⟩
      · refine ⟨digChar d, ?_, (digChar_props d hd10).2.2.1, (digChar_props d hd10).2.2.2⟩
        simp [printNum, hm, hu]
    obtain ⟨h0, hh, hq, hn⟩ := hhead
    rw [hin]
    simp only [parseCell, hh, Option.some.injEq]
    rw [if_neg (fun h => hq h), if_neg (fun h => hn h)]
    exact parseNum_printNum m e r hr

/-- Parsing the printed entries of a non-empty object recovers the entries
and consumes the closing brace. -/
theorem parseEntriesAux_print {α : Type} (pv : Str → Option (α × Str)) (printV : α → Str)
    (entries : List (Str × α)) :
    ∀ (fuel : Nat) (r : Str),
      entries ≠ [] →
      entries.length ≤ fuel →
      (∀ kv ∈ entries, '"' ∉ kv.1) →
      (∀ kv ∈ entries, ∀ r', (r'.head? = some ',' ∨ r'.head? = some '\x7d') →
          pv (printV kv.2 ++ r') = some (kv.2, r')) →
      parseEntriesAux pv fuel
          (printEntries (entries.map (fun kv => (kv.1, printV kv.2))) ++ '\x7d' :: r) =
        some (entries, r) := by
  induction entries with
  | nil => exact fun fuel r hne => absurd rfl hne
  | cons kv rest ih =>
    intro fuel r _ hfuel hkeys hpv
    obtain ⟨fuel, rfl⟩ : ∃ f, fuel = f + 1 := by
      cases fuel
      · simp at hfuel
      · exact ⟨_, rfl⟩
    obtain ⟨k, v⟩ := kv
    have hk : '"' ∉ k := hkeys (k, v) (List.mem_cons_self _ _)
    cases rest with
    | nil =>
      have hin : printEntries (((k, v) :: []).map (fun kv => (kv.1, printV kv.2))) ++
          '\x7d' :: r = '"' :: (k ++ '"' :: (':' :: (printV v ++ '\x7d' :: r))) := by
        simp [printEntries, List.append_assoc]
      rw [hin]
      simp only [parseEntriesAux]
      rw [parseStrLit_print k (':' :: (printV v ++ '\x7d' :: r)) hk]
      simp only [Option.some_bind, List.head?_cons, if_pos rfl, List.drop_succ_cons,
        List.drop_zero]
      rw [hpv (k, v) (List.mem_cons_self _ _) ('\x7d' :: r) (Or.inr rfl)]
      simp only [Option.some_bind, List.head?_cons]
      simp
    | cons kv2 rest2 =>
      have hin : printEntries (((k, v) :: kv2 :: rest2).map (fun kv => (kv.1, printV kv.2)))
          ++ '\x7d' :: r =
          '"' :: (k ++ '"' :: (':' :: (printV v ++ ',' ::
            (printEntries ((kv2 :: rest2).map (fun kv => (kv.1, printV kv.2))) ++
              '\x7d' :: r)))) := by
        simp [printEntries, List.append_assoc]
      rw [hin]
      simp only [parseEntriesAux]
      rw [parseStrLit_print k _ hk]
      simp only [Option.some_bind, List.head?_cons, if_pos rfl, List.drop_succ_cons,
        List.drop_zero]
      rw [hpv (k, v) (List.mem_cons_self _ _)
        (',' :: (printEntries ((kv2 :: rest2).map (fun kv => (kv.1, printV kv.2))) ++
          '\x7d' :: r)) (Or.inl rfl)]
      simp only [Option.some_bind, List.head?_cons, if_pos rfl, List.drop_succ_cons,
        List.drop_zero]
      rw [ih fuel r (by simp) (by simp at hfuel ⊢; omega)
        (fun x hx => hkeys x (List.mem_cons_of_mem _ hx))
        (fun x hx => hpv x (List.mem_cons_of_mem _ hx))]
      rfl

/-- Parsing a printed object recovers its entries. -/
theorem parseObj_print {α : Type} (pv : Str → Option (α × Str)) (printV : α → Str)
    (entries : List (Str × α)) (fuel : Nat) (r : Str)
    (hfuel : entries.length ≤ fuel)
    (hkeys : ∀ kv ∈ entries, '"' ∉ kv.1)
    (hpv : ∀ kv ∈ entries, ∀ r', (r'.head? = some ',' ∨ r'.head? = some '\x7d') →
        pv (printV kv.2 ++ r') = some (kv.2, r')) :
    parseObj pv fuel (printObj (entries.map (fun kv => (kv.1, printV kv.2))) ++ r) =
      some (entries, r) := by
  cases entries with
  | nil =>
    simp [printObj, printEntries, parseObj]
  | cons kv rest =>
    obtain ⟨k, v⟩ := kv
    have hin : printObj (((k, v) :: rest).map (fun kv => (kv.1, printV kv.2))) ++ r =
        '\x7b' :: (printEntries (((k, v) :: rest).map (fun kv => (kv.1, printV kv.2))) ++
          '\x7d' :: r) := by
      simp [printObj, List.append_assoc]
    rw [hin]
    simp only [parseObj, List.head?_cons, if_pos rfl, List.drop_succ_cons, List.drop_zero]
    have hq : (printEntries (((k, v) :: rest).map (fun kv => (kv.1, printV kv.2))) ++
        '\x7d' :: r).head? ≠ some '\x7d' := by
      cases rest <;> simp [printEntries]
    rw [if_neg hq]
    exact parseEntriesAux_print pv printV ((k, v) :: rest) fuel r (by simp) hfuel hkeys hpv

theorem printEntries_length_ge (entries : List (Str × Str)) :
    entries.length ≤ (printEntries entries).length := by
  induction entries with
  | nil => simp [printEntries]
  | cons kv rest ih =>
    obtain ⟨k, v⟩ := kv
    cases rest with
    | nil => simp [printEntries]
    | cons kv2 rest2 =>
      simp only [printEntries, List.length_cons, List.length_append] at ih ⊢
      omega

theorem printEntries_length_ge_value (entries : List (Str × Str)) :
    ∀ kv ∈ entries, kv.2.length ≤ (printEntries entries).length := by
  induction entries with
  | nil => simp
  | cons kv rest ih =>
    intro x hx
    obtain ⟨k, v⟩ := kv
    rcases List.mem_cons.mp hx with rfl | hx
    · cases rest with
      | nil => simp [printEntries]; omega
      | cons kv2 rest2 =>
        simp only [printEntries, List.length_cons, List.length_append]
        omega
    · cases rest with
      | nil => simp at hx
      | cons kv2 rest2 =>
        have := ih x hx
        simp only [printEntries, List.length_cons, List.length_append] at this ⊢
        omega

theorem printObj_length_eq (entries : List (Str × Str)) :
    (printObj entries).length = (printEntries entries).length + 2 := by
  simp [printObj]

/-- A head that is a comma or closing brace is neither a digit nor a dot. -/
theorem restHead_ok {r : Str} (h : r.head? = some ',' ∨ r.head? = some '\x7d') :
    ∀ x, r.head? = some x → x.isDigit = false ∧ x ≠ '.' := by
  intro x hx
  rcases h with h | h <;> rw [h] at hx <;>
    obtain rfl := Option.some.inj hx <;> exact ⟨rfl, by decide⟩

/-- Round-trip of the Table payload codec: decoding the encoding of a
valid table yields the table back, columns and rows in order, numeric
values exact. -/
theorem read_json_to_json (t : Table) (hv : TableValid t) :
    read_json (to_json t) = some t := by
  obtain ⟨hcells, _, _⟩ := hv
  have houtlen : t.length + 1 ≤ (to_json t).length := by
    have h1 := printEntries_length_ge
      (t.map (fun col => (col.1, printObj (col.2.map (fun rc => (rc.1, printCell rc.2))))))
    rw [to_json, printObj_length_eq]
    simp only [List.length_map] at h1
    omega
  have hinlen : ∀ col ∈ t,
      col.2.length + 1 ≤ (to_json t).length := by
    intro col hcol
    have h1 := printEntries_length_ge_value
      (t.map (fun c => (c.1, printObj (c.2.map (fun rc => (rc.1, printCell rc.2))))))
      (col.1, printObj (col.2.map (fun rc => (rc.1, printCell rc.2))))
      (List.mem_map_of_mem _ hcol)
    have h2 := printEntries_length_ge (col.2.map (fun rc => (rc.1, printCell rc.2)))
    rw [to_json, printObj_length_eq]
    rw [printObj_length_eq] at h1
    simp only [List.length_map] at h2
    omega
  have hpv : ∀ col ∈ t, ∀ r',
      (r'.head? = some ',' ∨ r'.head? = some '\x7d') →
      parseInnerObj ((to_json t).length + 1)
          (printObj (col.2.map (fun rc => (rc.1, printCell rc.2))) ++ r') =
        some (col.2, r') := by
    intro col hcol r' _
    have := parseObj_print parseCell printCell col.2 ((to_json t).length + 1) r'
      (by have := hinlen col hcol; omega)
      (fun rc hrc => ((hcells col hcol).2 rc hrc).1)
      (fun rc hrc r'' hr'' =>
        parseCell_print rc.2 r'' ((hcells col hcol).2 rc hrc).2 (restHead_ok hr''))
    exact this
  have key : parseObj (parseInnerObj ((to_json t).length + 1)) ((to_json t).length + 1)
      (to_json t) = some (t, []) := by
    have houter := parseObj_print (parseInnerObj ((to_json t).length + 1))
      (fun rows => printObj (rows.map (fun rc => (rc.1, printCell rc.2))))
      t ((to_json t).length + 1) []
      (by omega)
      (fun kv hkv => (hcells kv hkv).1)
      hpv
    rw [List.append_nil] at houter
    exact houter
  simp [read_json, key]

/-! ## Scanning lemmas for structured observations -/

theorem flat_append (xs ys : List Item) : flat (xs ++ ys) = flat xs ++ flat ys := by
  induction xs with
  | nil => rfl
  | cons i rest ih =>
    cases i with
    | text s => simp [flat, ih, List.append_assoc]
    | marker k p => simp [flat, ih, List.append_assoc]

theorem opener_head (k : Kind) : ∃ q, opener k = '[' :: q ∧ '[' ∉ q ∧ ']' ∉ q := by
  cases k with
  | chart => exact ⟨lc "CHART:", rfl, by decide, by decide⟩
  | figure => exact ⟨lc "PLOTLY:", rfl, by decide, by decide⟩
  | table => exact ⟨lc "TABLE:", rfl, by decide, by decide⟩

theorem clash2 {c d : Char} (h : c ≠ d) (u v : Str) :
    ('[' :: (c :: u)).isPrefixOf ('[' :: (d :: v)) = false := by
  rw [List.isPrefixOf_cons₂_self]
  exact isPrefixOf_cons_ne h

/-- Distinct opening tokens never match each other, whatever follows. -/
theorem opener_clash {k k' : Kind} (h : k ≠ k') (x y : Str) :
    ((opener k ++ x).isPrefixOf (opener k' ++ y)) = false := by
  cases k <;> cases k' <;> first
    | exact absurd rfl h
    | exact clash2 (by decide) _ _

theorem findSub_self (pat b : Str) : findSub pat (pat ++ b) = some 0 := by
  rw [findSub.eq_def, if_pos (isPrefixOf_append_self pat b)]

theorem findSub_cons_of_not_prefix {pat : Str} {c : Char} {s : Str}
    (h : pat.isPrefixOf (c :: s) = false) :
    findSub pat (c :: s) = (findSub pat s).map (· + 1) := by
  rw [findSub.eq_def, if_neg (by simp [h])]

theorem findSub_cons_shift {pt : Str} {c : Char} {s : Str} (h : c ≠ '[') :
    findSub ('[' :: pt) (c :: s) = (findSub ('[' :: pt) s).map (· + 1) :=
  findSub_cons_of_not_prefix (isPrefixOf_cons_ne (fun he => h he.symm))

/-- Scanning for a `[`-headed pattern skips over `[`-free text. -/
theorem findSub_headfree_shift {pt a : Str} (b : Str) (ha : '[' ∉ a) :
    findSub ('[' :: pt) (a ++ b) = (findSub ('[' :: pt) b).map (· + a.length) := by
  induction a with
  | nil =>
    cases h : findSub ('[' :: pt) b <;> simp [h]
  | cons c a ih =>
    have hc : c ≠ '[' := fun he => ha (he ▸ List.mem_cons_self c a)
    rw [List.cons_append, findSub_cons_shift hc, ih (fun hm => ha (List.mem_cons_of_mem c hm))]
    cases h : findSub ('[' :: pt) b <;> simp [h] <;> omega

theorem findSub_closer {p : Str} (z : Str) (hp : ']' ∉ p) :
    findSub [']'] (p ++ ']' :: z) = some p.length := by
  induction p with
  | nil =>
    have hpre : ([']']).isPrefixOf (']' :: z) = true := by
      rw [List.isPrefixOf_iff_prefix]
      exact ⟨z, rfl⟩
    rw [List.nil_append, findSub.eq_def, if_pos hpre]
    rfl
  | cons c p ih =>
    have hc : c ≠ ']' := fun he => hp (he ▸ List.mem_cons_self c p)
    rw [List.cons_append,
      findSub_cons_of_not_prefix (isPrefixOf_cons_ne (fun he => hc he.symm)),
      ih (fun hm => hp (List.mem_cons_of_mem c hm))]
    simp

theorem findSub_isSome_append (pat a b : Str) :
    (findSub pat (a ++ (pat ++ b))).isSome = true := by
  induction a with
  | nil => rw [List.nil_append, findSub_self]; rfl
  | cons c a ih =>
    rw [List.cons_append, findSub.eq_def]
    by_cases h : pat.isPrefixOf (c :: (a ++ (pat ++ b))) = true
    · rw [if_pos h]; rfl
    · rw [if_neg (by simp [h])]
      simpa using ih

theorem replaceAllFuel_nil (f : Nat) (pat : Str) : replaceAllFuel f [] pat = [] := by
  cases f <;> rfl

/-- `replaceAllFuel` does not depend on the fuel once it covers the
string's length. -/
theorem replaceAllFuel_irrel : ∀ (f g : Nat) (s pat : Str), s.length ≤ f → s.length ≤ g →
    replaceAllFuel f s pat = replaceAllFuel g s pat := by
  intro f
  induction f with
  | zero =>
    intro g s pat hf _
    obtain rfl : s = [] := List.eq_nil_of_length_eq_zero (Nat.le_zero.mp hf)
    rw [replaceAllFuel_nil, replaceAllFuel_nil]
  | succ f ih =>
    intro g s pat hf hg
    cases s with
    | nil => rw [replaceAllFuel_nil, replaceAllFuel_nil]
    | cons c t =>
      cases g with
      | zero => simp at hg
      | succ g =>
        simp only [List.length_cons] at hf hg
        simp only [replaceAllFuel]
        by_cases h : pat.isPrefixOf (c :: t) = true ∧ pat ≠ []
        · rw [if_pos h, if_pos h]
          have hd : (t.drop (pat.length - 1)).length ≤ t.length := by
            simp [List.length_drop]
          exact ih g _ pat (by omega) (by omega)
        · rw [if_neg h, if_neg h]
          rw [ih g t pat (by omega) (by omega)]

/-- The one-step unfolding of `replaceAll`. -/
theorem replaceAll_cons_eq (c : Char) (t pat : Str) :
    replaceAll (c :: t) pat =
      if pat.isPrefixOf (c :: t) ∧ pat ≠ [] then replaceAll (t.drop (pat.length - 1)) pat
      else c :: replaceAll t pat := by
  rw [replaceAll, replaceAll, replaceAll]
  simp only [List.length_cons, replaceAllFuel]
  split
  · exact replaceAllFuel_irrel _ _ _ _ (by simp [List.length_drop]) (le_refl _)
  · rfl

theorem replaceAll_nil (pat : Str) : replaceAll [] pat = [] := rfl

theorem replaceAll_cons_skip {q : Str} {c : Char} (t : Str) (h : c ≠ '[') :
    replaceAll (c :: t) ('[' :: q) = c :: replaceAll t ('[' :: q) := by
  rw [replaceAll_cons_eq, if_neg]
  intro hcond
  have := hcond.1
  rw [isPrefixOf_cons_ne (fun he => h he.symm)] at this
  exact Bool.false_ne_true this

/-- Deleting a `[`-headed pattern leaves `[`-free text untouched. -/
theorem replaceAll_headfree {q : Str} {a : Str} (b : Str) (ha : '[' ∉ a) :
    replaceAll (a ++ b) ('[' :: q) = a ++ replaceAll b ('[' :: q) := by
  induction a with
  | nil => rfl
  | cons c a ih =>
    have hc : c ≠ '[' := fun he => ha (he ▸ List.mem_cons_self c a)
    rw [List.cons_append, replaceAll_cons_skip _ hc,
      ih (fun hm => ha (List.mem_cons_of_mem c hm)), List.cons_append]

/-- Deleting the pattern at its own occurrence. -/
theorem replaceAll_self {c : Char} (pt b : Str) :
    replaceAll ((c :: pt) ++ b) (c :: pt) = replaceAll b (c :: pt) := by
  rw [List.cons_append, replaceAll_cons_eq, if_pos]
  · have hd : (pt ++ b).drop ((c :: pt).length - 1) = b := by
      simp only [List.length_cons, Nat.add_sub_cancel]
      exact List.drop_left pt b
    rw [hd]
  · exact ⟨isPrefixOf_append_self (c :: pt) b, by simp⟩

/-- Scanning for a kind's opening token skips the flattening of items that
hold no marker of that kind. -/
theorem findSub_flat_shift (k : Kind) (pre : List Item) (b : Str)
    (hpre : ∀ p, Item.marker k p ∉ pre) (hwf : ItemsWF pre) :
    findSub (opener k) (flat pre ++ b) =
      (findSub (opener k) b).map (· + (flat pre).length) := by
  obtain ⟨q, hq, hqf, _⟩ := opener_head k
  induction pre with
  | nil =>
    rw [show flat [] = ([] : Str) from rfl, List.nil_append]
    cases h : findSub (opener k) b <;> simp [h]
  | cons i rest ih =>
    have hwf' : ItemsWF rest := fun x hx => hwf x (List.mem_cons_of_mem i hx)
    have hpre' : ∀ p, Item.marker k p ∉ rest :=
      fun p hm => hpre p (List.mem_cons_of_mem i hm)
    cases i with
    | text s =>
      have hsf : '[' ∉ s := (hwf (.text s) (List.mem_cons_self _ _)).1
      rw [show flat (Item.text s :: rest) = s ++ flat rest from rfl, List.append_assoc,
        hq, findSub_headfree_shift _ hsf, ← hq, ih hpre' hwf']
      cases h : findSub (opener k) b <;> simp [h] <;> omega
    | marker k' p =>
      have hkk : k ≠ k' := by
        intro he
        subst he
        exact hpre p (List.mem_cons_self _ _)
      have hpf : '[' ∉ p := (hwf (.marker k' p) (List.mem_cons_self _ _)).1
      obtain ⟨q', hq', hq'f, _⟩ := opener_head k'
      have hx : flat (Item.marker k' p :: rest) ++ b =
          '[' :: (q' ++ (p ++ (']' :: (flat rest ++ b)))) := by
        rw [show flat (Item.marker k' p :: rest) = opener k' ++ (p ++ ']' :: flat rest)
            from rfl, hq']
        simp [List.append_assoc]
      have hnp : (opener k).isPrefixOf ('[' :: (q' ++ (p ++ (']' :: (flat rest ++ b)))))
          = false := by
        have h1 := opener_clash hkk [] (p ++ (']' :: (flat rest ++ b)))
        rw [List.append_nil] at h1
        rw [show ('[' :: (q' ++ (p ++ (']' :: (flat rest ++ b))))) =
          opener k' ++ (p ++ (']' :: (flat rest ++ b))) from by rw [hq']; rfl]
        exact h1
      rw [hx, findSub_cons_of_not_prefix hnp, hq, findSub_headfree_shift _ hq'f,
        findSub_headfree_shift _ hpf, findSub_cons_shift (by decide : ']' ≠ '['),
        ← hq, ih hpre' hwf']
      have hlen : (flat (Item.marker k' p :: rest)).length =
          1 + q'.length + (p.length + (1 + (flat rest).length)) := by
        rw [show flat (Item.marker k' p :: rest) = opener k' ++ (p ++ ']' :: flat rest)
            from rfl, hq']
        simp
        omega
      cases h : findSub (opener k) b <;> simp [h, hlen] <;> omega

/-- Deleting a marker string of a kind leaves the flattening of items
holding no marker of that kind untouched. -/
theorem replaceAll_flat_shift (k : Kind) (q2 : Str) (pre : List Item) (b : Str)
    (hpre : ∀ p, Item.marker k p ∉ pre) (hwf : ItemsWF pre) :
    replaceAll (flat pre ++ b) (opener k ++ q2) =
      flat pre ++ replaceAll b (opener k ++ q2) := by
  obtain ⟨q, hq, hqf, _⟩ := opener_head k
  have hpat : opener k ++ q2 = '[' :: (q ++ q2) := by rw [hq]; rfl
  induction pre with
  | nil => rfl
  | cons i rest ih =>
    have hwf' : ItemsWF rest := fun x hx => hwf x (List.mem_cons_of_mem i hx)
    have hpre' : ∀ p, Item.marker k p ∉ rest :=
      fun p hm => hpre p (List.mem_cons_of_mem i hm)
    cases i with
    | text s =>
      have hsf : '[' ∉ s := (hwf (.text s) (List.mem_cons_self _ _)).1
      rw [show flat (Item.text s :: rest) = s ++ flat rest from rfl, List.append_assoc,
        hpat, replaceAll_headfree _ hsf, ← hpat, ih hpre' hwf', List.append_assoc]
    | marker k' p =>
      have hkk : k ≠ k' := by
        intro he
        subst he
        exact hpre p (List.mem_cons_self _ _)
      have hpf : '[' ∉ p := (hwf (.marker k' p) (List.mem_cons_self _ _)).1
      obtain ⟨q', hq', hq'f, _⟩ := opener_head k'
      have hx : flat (Item.marker k' p :: rest) ++ b =
          '[' :: (q' ++ (p ++ (']' :: (flat rest ++ b)))) := by
        rw [show flat (Item.marker k' p :: rest) = opener k' ++ (p ++ ']' :: flat rest)
            from rfl, hq']
        simp [List.append_assoc]
      have hnp : (opener k ++ q2).isPrefixOf
          ('[' :: (q' ++ (p ++ (']' :: (flat rest ++ b))))) = false := by
        have h1 := opener_clash hkk q2 (p ++ (']' :: (flat rest ++ b)))
        rw [show ('[' :: (q' ++ (p ++ (']' :: (flat rest ++ b))))) =
          opener k' ++ (p ++ (']' :: (flat rest ++ b))) from by rw [hq']; rfl]
        exact h1
      have hskip : replaceAll ('[' :: (q' ++ (p ++ (']' :: (flat rest ++ b)))))
          (opener k ++ q2) =
          '[' :: replaceAll (q' ++ (p ++ (']' :: (flat rest ++ b)))) (opener k ++ q2) := by
        rw [replaceAll_cons_eq, if_neg]
        intro hcond
        rw [hnp] at hcond
        exact Bool.false_ne_true hcond.1
      rw [hx, hskip, hpat, replaceAll_headfree _ hq'f, replaceAll_headfree _ hpf,
        replaceAll_cons_skip _ (by decide : ']' ≠ '['), ← hpat, ih hpre' hwf']
      rw [show flat (Item.marker k' p :: rest) = opener k' ++ (p ++ ']' :: flat rest)
          from rfl, hq']
      simp [List.append_assoc]

/-- Deleting a marker string of a kind is the identity on the flattening
of items holding no marker of that kind. -/
theorem replaceAll_flat_id (k : Kind) (q2 : Str) (post : List Item)
    (hpost : ∀ p, Item.marker k p ∉ post) (hwf : ItemsWF post) :
    replaceAll (flat post) (opener k ++ q2) = flat post := by
  have h := replaceAll_flat_shift k q2 post [] hpost hwf
  rwa [List.append_nil, replaceAll_nil, List.append_nil] at h

/-- The extraction pattern locates the unique marker of kind `k`
(wherever it sits among the other items), slices out exactly its payload,
and deletes exactly its span. -/
theorem scanFor_found (k : Kind) (pre post : List Item) (p : Str)
    (hpre : ∀ q, Item.marker k q ∉ pre) (hpost : ∀ q, Item.marker k q ∉ post)
    (hwf : ItemsWF (pre ++ .marker k p :: post)) :
    scanFor k (flat (pre ++ .marker k p :: post)) = .found p (flat (pre ++ post)) := by
  have hwfpre : ItemsWF pre := fun i hi => hwf i (List.mem_append_left _ hi)
  have hwfpost : ItemsWF post :=
    fun i hi => hwf i (List.mem_append_right _ (List.mem_cons_of_mem _ hi))
  have hpwf : bracketFree p :=
    hwf (.marker k p) (List.mem_append_right _ (List.mem_cons_self _ _))
  have hcontent : flat (pre ++ .marker k p :: post) =
      flat pre ++ (opener k ++ (p ++ ']' :: flat post)) := by
    rw [flat_append]
    rfl
  have hdrop : (flat pre ++ (opener k ++ (p ++ ']' :: flat post))).drop
      ((flat pre).length + (opener k).length) = p ++ ']' :: flat post := by
    rw [show flat pre ++ (opener k ++ (p ++ ']' :: flat post)) =
        (flat pre ++ opener k) ++ (p ++ ']' :: flat post) from by simp [List.append_assoc]]
    exact List.drop_left' (by simp)
  have h1 : findSub (opener k) (flat (pre ++ .marker k p :: post)) =
      some (flat pre).length := by
    rw [hcontent, findSub_flat_shift k pre _ hpre hwfpre, findSub_self]
    simp
  have h2 : ∃ j, findSub [']'] (flat (pre ++ .marker k p :: post)) = some j := by
    have hs := findSub_isSome_append [']'] (flat pre ++ (opener k ++ p)) (flat post)
    rw [show (flat pre ++ (opener k ++ p)) ++ ([']'] ++ flat post) =
        flat pre ++ (opener k ++ (p ++ ']' :: flat post)) from by
      simp [List.append_assoc]] at hs
    rw [hcontent]
    exact Option.isSome_iff_exists.mp hs
  have h3 : findSubFrom [']'] ((flat pre).length + (opener k).length)
      (flat (pre ++ .marker k p :: post)) =
      some ((flat pre).length + (opener k).length + p.length) := by
    rw [findSubFrom, hcontent, hdrop, findSub_closer _ hpwf.2]
    simp [Nat.add_comm]
  have h4 : slice (flat (pre ++ .marker k p :: post))
      ((flat pre).length + (opener k).length)
      ((flat pre).length + (opener k).length + p.length) = p := by
    rw [slice, hcontent, hdrop, Nat.add_sub_cancel_left]
    exact List.take_left p _
  have h5 : replaceAll (flat (pre ++ .marker k p :: post)) (opener k ++ p ++ [']']) =
      flat (pre ++ post) := by
    have hform : flat (pre ++ .marker k p :: post) =
        flat pre ++ ((opener k ++ (p ++ [']'])) ++ flat post) := by
      rw [hcontent]
      simp [List.append_assoc]
    have hpat2 : opener k ++ p ++ [']'] = opener k ++ (p ++ [']']) := by
      simp [List.append_assoc]
    obtain ⟨q, hq, _, _⟩ := opener_head k
    rw [hpat2, hform, replaceAll_flat_shift k (p ++ [']']) pre _ hpre hwfpre]
    have hself : replaceAll ((opener k ++ (p ++ [']'])) ++ flat post)
        (opener k ++ (p ++ [']'])) = replaceAll (flat post) (opener k ++ (p ++ [']'])) := by
      rw [show opener k ++ (p ++ [']']) = '[' :: (q ++ (p ++ [']'])) from by rw [hq]; rfl]
      exact replaceAll_self _ _
    rw [hself, replaceAll_flat_id k _ post hpost hwfpost, flat_append]
  obtain ⟨j, hj⟩ := h2
  simp only [scanFor, h1, hj, h3, h4, h5]

/-- The CHART branch on an observation holding exactly one chart marker
with a decodable payload: render the image, strip the marker. -/
theorem chartStep_found (pre post : List Item) (p : Str) (bytes : List Nat)
    (hpre : ∀ q, Item.marker .chart q ∉ pre) (hpost : ∀ q, Item.marker .chart q ∉ post)
    (hwf : ItemsWF (pre ++ .marker .chart p :: post)) (hb : b64decode p = some bytes) :
    chartStep (flat (pre ++ .marker .chart p :: post)) =
      .ok (flat (pre ++ post), [.onChart bytes]) := by
  simp only [chartStep, scanFor_found .chart pre post p hpre hpost hwf, hb]

/-- The PLOTLY branch on an observation holding exactly one figure marker
whose payload evaluates: run it, render the figure, strip the marker. -/
theorem plotlyStep_found (evalOk : Str → Bool) (pre post : List Item) (p : Str)
    (hpre : ∀ q, Item.marker .figure q ∉ pre) (hpost : ∀ q, Item.marker .figure q ∉ post)
    (hwf : ItemsWF (pre ++ .marker .figure p :: post)) (he : evalOk p = true) :
    plotlyStep evalOk (flat (pre ++ .marker .figure p :: post)) =
      (flat (pre ++ post), [.pyRunCode p, .onFigure p]) := by
  simp [plotlyStep, scanFor_found .figure pre post p hpre hpost hwf, he]

/-- The TABLE branch on an observation holding exactly one table marker
with a decodable payload: render the table, strip the marker. -/
theorem tableStep_found (pre post : List Item) (p : Str) (tb : Table)
    (hpre : ∀ q, Item.marker .table q ∉ pre) (hpost : ∀ q, Item.marker .table q ∉ post)
    (hwf : ItemsWF (pre ++ .marker .table p :: post)) (ht : read_json p = some tb) :
    tableStep (flat (pre ++ .marker .table p :: post)) =
      (flat (pre ++ post), [.onTable tb]) := by
  simp only [tableStep, scanFor_found .table pre post p hpre hpost hwf, ht]

/-- A list with exactly one marker of a kind splits around that marker. -/
theorem countKind_one_decomp (k : Kind) (items : List Item) (h : countKind k items = 1) :
    ∃ pre p post, items = pre ++ .marker k p :: post ∧
      (∀ q, Item.marker k q ∉ pre) ∧ (∀ q, Item.marker k q ∉ post) := by
  induction items with
  | nil => simp [countKind] at h
  | cons i rest ih =>
    rw [countKind, List.countP_cons] at h
    by_cases hik : isMarkerK k i = true
    · obtain ⟨p, rfl⟩ : ∃ p, i = .marker k p := by
        cases i with
        | text s => simp [isMarkerK] at hik
        | marker k' p =>
          simp only [isMarkerK, decide_eq_true_eq] at hik
          exact ⟨p, by rw [hik]⟩
      have hrest : rest.countP (isMarkerK k) = 0 := by
        rw [if_pos hik] at h
        omega
      refine ⟨[], p, rest, rfl, by simp, ?_⟩
      intro q hq
      have h0 := List.countP_eq_zero.mp hrest _ hq
      simp [isMarkerK] at h0
    · have hcount : countKind k rest = 1 := by
        rw [if_neg hik] at h
        rw [countKind]
        omega
      obtain ⟨pre, p, post, rfl, hpre, hpost⟩ := ih hcount
      refine ⟨i :: pre, p, post, rfl, ?_, hpost⟩
      intro q hq
      rcases List.mem_cons.mp hq with he | hq'
      · apply hik
        rw [← he]
        simp [isMarkerK]
      · exact hpre q hq'

/-- Removing a marker of another kind does not change a kind's count. -/
theorem countKind_remove {k k' : Kind} (h : k' ≠ k) (pre post : List Item) (p : Str) :
    countKind k' (pre ++ post) = countKind k' (pre ++ .marker k p :: post) := by
  have h2 : ¬ (k = k') := fun he => h he.symm
  simp [countKind, List.countP_append, List.countP_cons, isMarkerK, h2]

theorem ItemsWF_remove (pre post : List Item) (x : Item)
    (h : ItemsWF (pre ++ x :: post)) : ItemsWF (pre ++ post) := by
  intro i hi
  rcases List.mem_append.mp hi with h1 | h1
  · exact h i (List.mem_append_left _ h1)
  · exact h i (List.mem_append_right _ (List.mem_cons_of_mem _ h1))

theorem mem_of_mem_remove {pre post : List Item} {x i : Item} (hi : i ∈ pre ++ post) :
    i ∈ pre ++ x :: post := by
  rcases List.mem_append.mp hi with h1 | h1
  · exact List.mem_append_left _ h1
  · exact List.mem_append_right _ (List.mem_cons_of_mem _ h1)

theorem chartStep_cases (content : Str) :
    chartStep content = .error () ∨
    chartStep content = .ok (content, []) ∨
    (∃ t, chartStep content = .ok (content, [.stShowError t])) ∨
    (∃ c1 b, chartStep content = .ok (c1, [.onChart b])) := by
  rcases hsc : scanFor .chart content with _ | _ | ⟨p, s⟩
  · exact Or.inr (Or.inl (by simp [chartStep, hsc]))
  · exact Or.inl (by simp [chartStep, hsc])
  · rcases hb : b64decode p with _ | b
    · exact Or.inr (Or.inr (Or.inl ⟨lc "Error rendering chart", by simp [chartStep, hsc, hb]⟩))
    · exact Or.inr (Or.inr (Or.inr ⟨s, b, by simp [chartStep, hsc, hb]⟩))

/-- The PLOTLY branch emits no event, one diagnostic, an `eval` record
followed by `onFigure`, or an `eval` record followed by a diagnostic. -/
theorem plotlyStep_cases (evalOk : Str → Bool) (content : Str) :
    (plotlyStep evalOk content).2 = [] ∨
    (∃ t, (plotlyStep evalOk content).2 = [.stShowError t]) ∨
    (∃ p, (plotlyStep evalOk content).2 = [.pyRunCode p, .onFigure p]) ∨
    (∃ p t, (plotlyStep evalOk content).2 = [.pyRunCode p, .stShowError t]) := by
  rcases hsc : scanFor .figure content with _ | _ | ⟨p, s⟩
  · exact Or.inl (by simp [plotlyStep, hsc])
  · exact Or.inr (Or.inl ⟨lc "Error rendering Plotly chart", by simp [plotlyStep, hsc]⟩)
  · rcases he : evalOk p with _ | _
    · exact Or.inr (Or.inr (Or.inr ⟨p, lc "Error rendering Plotly chart",
        by simp [plotlyStep, hsc, he]⟩))
    · exact Or.inr (Or.inr (Or.inl ⟨p, by simp [plotlyStep, hsc, he]⟩))

/-- The TABLE branch emits no event, one diagnostic, or one `onTable`. -/
theorem tableStep_cases (content : Str) :
    (tableStep content).2 = [] ∨
    (∃ t, (tableStep content).2 = [.stShowError t]) ∨
    (∃ t, (tableStep content).2 = [.onTable t]) := by
  rcases hsc : scanFor .table content with _ | _ | ⟨p, s⟩
  · exact Or.inl (by simp [tableStep, hsc])
  · exact Or.inr (Or.inl ⟨lc "Error rendering table", by simp [tableStep, hsc]⟩)
  · rcases hj : read_json p with _ | t
    · exact Or.inr (Or.inl ⟨lc "Error rendering table", by simp [tableStep, hsc, hj]⟩)
    · exact Or.inr (Or.inr ⟨t, by simp [tableStep, hsc, hj]⟩)

/-- The final write emits at most one `onText`. -/
theorem textStep_cases (content : Str) :
    textStep content = [] ∨ textStep content = [.onText content] := by
  unfold textStep
  by_cases h : pyStrip content = []
  · exact Or.inl (by simp [h])
  · exact Or.inr (by simp [h])

/-- Sink-count bounds for the CHART branch events. -/
theorem chartStep_countP (content c1 : Str) (e1 : List Event)
    (h : chartStep content = .ok (c1, e1)) :
    e1.countP isOnChart ≤ 1 ∧ e1.countP isOnFigure = 0 ∧ e1.countP isOnTable = 0 := by
  rcases chartStep_cases content with hc | hc | ⟨t, hc⟩ | ⟨c, b, hc⟩ <;>
    rw [h] at hc <;>
    simp_all [isOnChart, isOnFigure, isOnTable, List.countP_cons]

/-- Sink-count bounds for the PLOTLY branch events. -/
theorem plotlyStep_countP (evalOk : Str → Bool) (content : Str) :
    (plotlyStep evalOk content).2.countP isOnChart = 0 ∧
    (plotlyStep evalOk content).2.countP isOnFigure ≤ 1 ∧
    (plotlyStep evalOk content).2.countP isOnTable = 0 := by
  rcases plotlyStep_cases evalOk content with h | ⟨t, h⟩ | ⟨p, h⟩ | ⟨p, t, h⟩ <;>
    simp [h, isOnChart, isOnFigure, isOnTable, List.countP_cons]

/-- Sink-count bounds for the TABLE branch events. -/
theorem tableStep_countP (content : Str) :
    (tableStep content).2.countP isOnChart = 0 ∧
    (tableStep content).2.countP isOnFigure = 0 ∧
    (tableStep content).2.countP isOnTable ≤ 1 := by
  rcases tableStep_cases content with h | ⟨t, h⟩ | ⟨t, h⟩ <;>
    simp [h, isOnChart, isOnFigure, isOnTable, List.countP_cons]

/-- The final write invokes no payload sink. -/
theorem textStep_countP (content : Str) :
    (textStep content).countP isOnChart = 0 ∧
    (textStep content).countP isOnFigure = 0 ∧
    (textStep content).countP isOnTable = 0 := by
  rcases textStep_cases content with h | h <;>
    simp [h, isOnChart, isOnFigure, isOnTable, List.countP_cons]

/-! # Claim theorems -/

/-- C1: the claim states the dispatcher never evaluates the Figure payload
as executable code; the source does exactly that (ui.py line 104,
`go.Figure(eval(plotly_config))`).  At the observation `[PLOTLY:1+1]` the
extracted payload `1+1` is handed to Python `eval` — the model records the
`pyRunCode` event for it. -/
theorem C1_figure_payload_is_evaluated :
    render_visualization evalAlways (lc "[PLOTLY:1+1]") =
      .ok ([.pyRunCode (lc "1+1"), .onFigure (lc "1+1")], []) ∧
    Event.pyRunCode (lc "1+1") ∈
      eventsOf (render_visualization evalAlways (lc "[PLOTLY:1+1]")) :=
  ⟨rfl, by decide⟩

/-- C7: the claim states `render` never raises; on an input whose `]`
occurs only before the `[CHART:` opening token, the guard
`"[CHART:" in content and "]" in content` passes but
`content.index("]", start)` (ui.py line 83, outside the `try` block)
raises an uncaught `ValueError`. -/
theorem C7_render_raises_on_bracket_before_chart :
    render_visualization evalAlways (lc "] [CHART:AA") = .error () := rfl

/-- C4, counterexample: with two Chart markers only the first is processed
(the branch is an `if`, not a loop), the second survives into the residual
text, and re-running the extractor on that residual extracts a further
marker and changes the text — so extraction is neither exhaustive per kind
nor idempotent on its residual. -/
theorem C4_counterexample :
    render_visualization evalAlways (lc "[CHART:AAAA][CHART:BBBB]") =
      .ok ([.onChart [0, 0, 0], .onText (lc "[CHART:BBBB]")], lc "[CHART:BBBB]") ∧
    render_visualization evalAlways (lc "[CHART:BBBB]") =
      .ok ([.onChart [4, 16, 65]], []) :=
  ⟨rfl, rfl⟩

/-- C4, amended: each marker branch of `render_visualization` is an `if`,
not a loop — one render pass invokes each payload sink at most once, no
matter how many markers of a kind the observation holds. -/
theorem C4_amended_at_most_one_per_kind (evalOk : Str → Bool) (content : Str) :
    (eventsOf (render_visualization evalOk content)).countP isOnChart ≤ 1 ∧
    (eventsOf (render_visualization evalOk content)).countP isOnFigure ≤ 1 ∧
    (eventsOf (render_visualization evalOk content)).countP isOnTable ≤ 1 := by
  rcases h1 : chartStep content with u | ⟨c1, e1⟩
  · cases u
    simp [render_visualization, h1, eventsOf]
  · have he1 := chartStep_countP content c1 e1 h1
    have he2 := plotlyStep_countP evalOk c1
    have he3 := tableStep_countP (plotlyStep evalOk c1).1
    have he4 := textStep_countP (tableStep (plotlyStep evalOk c1).1).1
    simp only [render_visualization, h1, eventsOf, List.countP_append]
    omega

/-- C5, counterexample: on the end-to-end example observation the marker is
stripped but the `<observation>` framing tags are not, so the residual text
is non-empty, `content.strip()` is truthy, and `onText`
(`answer_container.write`) IS invoked — contradicting the claimed empty
residual. -/
theorem C5_counterexample :
    Event.onText exampleResidual ∈
      eventsOf (render_visualization evalAlways exampleObservation) ∧
    exampleResidual ≠ [] ∧ pyStrip exampleResidual ≠ [] := by
  decide

/-- C5, amended: rendering the example observation invokes the table sink
exactly once with the one-cell table `0 ↦ (close ↦ 150.2)` and leaves the
observation framing tags as residual text, which is non-blank, so `onText`
is invoked with it. -/
theorem C5_amended_render_of_example :
    render_visualization evalAlways exampleObservation =
      .ok ([.onTable exampleTable, .onText exampleResidual], exampleResidual) :=
  rfl

/-- C6: the claim states the Embedder escapes the closing delimiter or uses
length-prefixed framing; the source embeds `repr(...)` verbatim
(stock_charts.py line 26) and the Extractor scans to the FIRST `]`
(ui.py line 100).  For the payload `[1, 2]` the dispatcher therefore
receives the truncated payload `[1, 2` — not the complete payload — and a
stray `]` is left in the text. -/
theorem C6_payload_with_bracket_truncated :
    render_visualization evalAlways (plotlyMarker (lc "[1, 2]")) =
      .ok ([.pyRunCode (lc "[1, 2"), .onFigure (lc "[1, 2"), .onText [']']], [']']) ∧
    lc "[1, 2" ≠ lc "[1, 2]" :=
  ⟨rfl, by decide⟩

/-- C8: the Table payload codec round-trips — decoding (`read_json`, the
Dispatcher's decode in the TABLE branch) the encoding (`to_json`, the
serialization `wrap_dataframe` embeds) of any valid Table payload yields
the payload back exactly, so column order is preserved and numeric values
are preserved exactly (a fortiori to six significant digits). -/
theorem C8_table_codec_round_trip (t : Table) (hv : TableValid t) :
    read_json (to_json t) = some t ∧
    (read_json (to_json t)).map (fun u => u.map (fun col => col.1)) =
      some (t.map (fun col => col.1)) := by
  have h := read_json_to_json t hv
  exact ⟨h, by rw [h]; rfl⟩

/-- Witness for `C8_table_codec_round_trip` at a concrete two-column
table. -/
theorem C8_witness :
    TableValid c8Table ∧ read_json (to_json c8Table) = some c8Table :=
  ⟨by decide, (C8_table_codec_round_trip c8Table (by decide)).1⟩

/-- C3: on an observation containing exactly one Chart, one Figure and one
Table marker — in ANY document order, with any delimiter-free prose between
them, well-formed payloads — the dispatcher invokes the payload sinks in
the fixed kind-priority order `onChart`, then `onFigure`, then `onTable`,
regardless of where the markers sit in the input. -/
theorem C3_order_invariant (evalOk : Str → Bool) (items : List Item)
    (hwf : ItemsWF items)
    (hc : countKind .chart items = 1)
    (hf : countKind .figure items = 1)
    (htb : countKind .table items = 1)
    (hb64 : ∀ p, Item.marker .chart p ∈ items → (b64decode p).isSome = true)
    (heval : ∀ p, Item.marker .figure p ∈ items → evalOk p = true)
    (hjson : ∀ p, Item.marker .table p ∈ items → (read_json p).isSome = true) :
    handlerKinds (eventsOf (render_visualization evalOk (flat items))) =
      [.chart, .figure, .table] := by
  obtain ⟨pre1, p1, post1, heq1, hpre1, hpost1⟩ := countKind_one_decomp .chart items hc
  subst heq1
  obtain ⟨bytes, hb⟩ := Option.isSome_iff_exists.mp
    (hb64 p1 (List.mem_append_right _ (List.mem_cons_self _ _)))
  have hstep1 := chartStep_found pre1 post1 p1 bytes hpre1 hpost1 hwf hb
  have hwf2 : ItemsWF (pre1 ++ post1) := ItemsWF_remove _ _ _ hwf
  have hf2 : countKind .figure (pre1 ++ post1) = 1 := by
    rw [countKind_remove (by decide : Kind.figure ≠ Kind.chart) pre1 post1 p1]
    exact hf
  obtain ⟨pre2, p2, post2, heq2, hpre2, hpost2⟩ := countKind_one_decomp .figure _ hf2
  have hm2 : Item.marker .figure p2 ∈ pre1 ++ post1 := by
    rw [heq2]
    exact List.mem_append_right _ (List.mem_cons_self _ _)
  have heval2 : evalOk p2 = true := heval p2 (mem_of_mem_remove hm2)
  have hwf2' : ItemsWF (pre2 ++ Item.marker .figure p2 :: post2) := heq2 ▸ hwf2
  have hstep2 : plotlyStep evalOk (flat (pre1 ++ post1)) =
      (flat (pre2 ++ post2), [.pyRunCode p2, .onFigure p2]) := by
    rw [heq2]
    exact plotlyStep_found evalOk pre2 post2 p2 hpre2 hpost2 hwf2' heval2
  have hwf3 : ItemsWF (pre2 ++ post2) := ItemsWF_remove _ _ _ hwf2'
  have ht2 : countKind .table (pre1 ++ post1) = 1 := by
    rw [countKind_remove (by decide : Kind.table ≠ Kind.chart) pre1 post1 p1]
    exact htb
  have ht3 : countKind .table (pre2 ++ post2) = 1 := by
    rw [countKind_remove (by decide : Kind.table ≠ Kind.figure) pre2 post2 p2, ← heq2]
    exact ht2
  obtain ⟨pre3, p3, post3, heq3, hpre3, hpost3⟩ := countKind_one_decomp .table _ ht3
  have hm3 : Item.marker .table p3 ∈ pre2 ++ post2 := by
    rw [heq3]
    exact List.mem_append_right _ (List.mem_cons_self _ _)
  have hm3' : Item.marker .table p3 ∈ pre1 ++ post1 := by
    rw [heq2]
    exact mem_of_mem_remove hm3
  obtain ⟨tb, htbv⟩ := Option.isSome_iff_exists.mp (hjson p3 (mem_of_mem_remove hm3'))
  have hwf3' : ItemsWF (pre3 ++ Item.marker .table p3 :: post3) := heq3 ▸ hwf3
  have hstep3 : tableStep (flat (pre2 ++ post2)) =
      (flat (pre3 ++ post3), [.onTable tb]) := by
    rw [heq3]
    exact tableStep_found pre3 post3 p3 tb hpre3 hpost3 hwf3' htbv
  simp only [render_visualization, hstep1, hstep2, hstep3, eventsOf]
  rcases textStep_cases (flat (pre3 ++ post3)) with h4 | h4 <;>
    simp [h4, handlerKinds]

/-- Witness items for `C3_order_invariant`: table marker first, then chart,
then figure, with prose between — document order opposite to the priority
order. -/
def c3Items : List Item :=
  [.text (lc "intro "), .marker .table (lc "\x7b\"0\":\x7b\"close\":150.2\x7d\x7d"),
   .text (lc " mid "), .marker .chart (lc "QUJD"),
   .marker .figure (lc "dict(data=1)"), .text (lc " outro")]

/-- Witness for `C3_order_invariant` at `c3Items`. -/
theorem C3_order_invariant_witness :
    (ItemsWF c3Items ∧ countKind .chart c3Items = 1 ∧ countKind .figure c3Items = 1 ∧
      countKind .table c3Items = 1) ∧
    handlerKinds (eventsOf (render_visualization evalAlways (flat c3Items))) =
      [.chart, .figure, .table] :=
  ⟨⟨by decide, by decide, by decide, by decide⟩,
    C3_order_invariant evalAlways c3Items (by decide) (by decide) (by decide) (by decide)
      (fun p hp => by
        simp only [c3Items, List.mem_cons, List.not_mem_nil, or_false] at hp
        simp only [Item.marker.injEq] at hp
        simp at hp
        subst hp
        decide)
      (fun p hp => rfl)
      (fun p hp => by
        simp only [c3Items, List.mem_cons, List.not_mem_nil, or_false] at hp
        simp only [Item.marker.injEq] at hp
        simp at hp
        subst hp
        decide)⟩

/-! ## C2: the Tool Fallback Interceptor -/

/-- C2, counterexample: in a batch of three tool calls where exactly one
raises, the fallback node emits three error messages — one per call in the
batch, each repeating the same error — and the two successful calls'
Observations are not returned at all. -/
theorem C2_counterexample :
    (tool_node_with_fallback c2Run c2Calls).countP
        (fun m => (lc "Error: ").isPrefixOf m.content) = 3 ∧
    (tool_node_with_fallback c2Run c2Calls).countP
        (fun m => m.content = lc "result data") = 0 ∧
    tool_node_with_fallback c2Run c2Calls ≠
      [⟨lc "result data", lc "call_a"⟩,
       ⟨lc "Error: boom\n please fix your mistakes.", lc "call_b"⟩,
       ⟨lc "result data", lc "call_c"⟩] := by
  refine ⟨rfl, rfl, ?_⟩
  decide

/-- C2, amended: when any tool call of a batch raises, the fallback
replaces the output of the whole batch by `handle_tool_error`, which emits
one Correction Message PER TOOL CALL in the batch — all carrying the same
error text, keyed to every `tool_call_id` in order — rather than exactly
one message for the failing call; the non-failing calls' Observations are
not passed through. -/
theorem C2_amended_fallback_replaces_batch (run : ToolCall → Except Str Str)
    (calls : List ToolCall) (tc0 : ToolCall) (e0 : Str)
    (hmem : tc0 ∈ calls) (hfail : run tc0 = .error e0) :
    ∃ e, tool_node_with_fallback run calls = handle_tool_error e calls ∧
      (tool_node_with_fallback run calls).length = calls.length ∧
      (tool_node_with_fallback run calls).map (fun m => m.tool_call_id) =
        calls.map (fun tc => tc.id) ∧
      ∀ m ∈ tool_node_with_fallback run calls,
        m.content = lc "Error: " ++ e ++ lc "\n please fix your mistakes." := by
  unfold tool_node_with_fallback
  cases hf : calls.findSome? (fun tc => match run tc with
    | .error e => some e
    | .ok _ => none) with
  | none =>
    exfalso
    have := (List.findSome?_eq_none_iff.mp hf) tc0 hmem
    rw [hfail] at this
    exact Option.some_ne_none e0 this
  | some e =>
    refine ⟨e, rfl, ?_, ?_, ?_⟩
    · simp [handle_tool_error]
    · simp [handle_tool_error]
    · intro m hm
      simp only [handle_tool_error, List.mem_map] at hm
      obtain ⟨tc, _, rfl⟩ := hm
      rfl

/-- Witness for `C2_amended_fallback_replaces_batch` at the concrete
three-call batch. -/
theorem C2_amended_witness :
    ((⟨lc "call_b"⟩ : ToolCall) ∈ c2Calls ∧
      (c2Run ⟨lc "call_b"⟩).toOption = none) ∧
    (∃ e, tool_node_with_fallback c2Run c2Calls = handle_tool_error e c2Calls ∧
      (tool_node_with_fallback c2Run c2Calls).length = c2Calls.length ∧
      (tool_node_with_fallback c2Run c2Calls).map (fun m => m.tool_call_id) =
        c2Calls.map (fun tc => tc.id) ∧
      ∀ m ∈ tool_node_with_fallback c2Run c2Calls,
        m.content = lc "Error: " ++ e ++ lc "\n please fix your mistakes.") :=
  ⟨⟨by decide, rfl⟩,
    C2_amended_fallback_replaces_batch c2Run c2Calls ⟨lc "call_b"⟩ (lc "boom")
      (by decide) rfl⟩

/-! ## C10: `wrap_dataframe` -/

/-- C10, counterexample: when serialization fails (here with message
`boom`), `wrap_dataframe` returns the error observation whose opening tag
is NOT followed by a newline, so the result is not framed by
`\n<observation>\n` as claimed. -/
theorem C10_counterexample :
    wrap_dataframe (.error (lc "boom")) =
      lc "\n<observation>Error converting DataFrame: boom\n</observation>\n" ∧
    (lc "\n<observation>\n").isPrefixOf (wrap_dataframe (.error (lc "boom"))) = false :=
  ⟨rfl, by decide⟩

/-- C10, amended: `wrap_dataframe` never raises; every result starts with
`\n<observation>` and ends with `\n</observation>\n`.  When serialization
succeeds (and the JSON text contains no `[`) the result opens with
`\n<observation>\n` and contains exactly one Table marker holding the
serialized data; when serialization raises (message without `[`) the
result contains no Table marker, but its opening tag is immediately
followed by the error text — the newline of the claimed framing is
missing. -/
theorem C10_amended_wrap_dataframe_shape (j m : Str) (hj : '[' ∉ j) (hm : '[' ∉ m) :
    (lc "\n<observation>").isPrefixOf (wrap_dataframe (.ok j)) = true ∧
    (lc "\n</observation>\n").isSuffixOf (wrap_dataframe (.ok j)) = true ∧
    (lc "\n<observation>").isPrefixOf (wrap_dataframe (.error m)) = true ∧
    (lc "\n</observation>\n").isSuffixOf (wrap_dataframe (.error m)) = true ∧
    countSub (lc "[TABLE:") (wrap_dataframe (.ok j)) = 1 ∧
    (lc "\n<observation>\n").isPrefixOf (wrap_dataframe (.ok j)) = true ∧
    countSub (lc "[TABLE:") (wrap_dataframe (.error m)) = 0 ∧
    (lc "\n<observation>\n").isPrefixOf (wrap_dataframe (.error m)) = false := by
  refine ⟨?_, ?_, ?_, ?_, ?_, ?_, ?_, ?_⟩
  case _ =>
    show (lc "\n<observation>").isPrefixOf
      (lc "\n<observation>" ++ (lc "\n[TABLE:" ++ j ++ lc "]\n</observation>\n")) = true
    exact isPrefixOf_append_self _ _
  case _ =>
    rw [List.isSuffixOf_iff_suffix]
    show lc "\n</observation>\n" <:+
      lc "\n<observation>\n[TABLE:" ++ j ++ lc "]\n</observation>\n"
    exact List.IsSuffix.trans (by decide)
      (List.suffix_append (lc "\n<observation>\n[TABLE:" ++ j) (lc "]\n</observation>\n"))
  case _ =>
    show (lc "\n<observation>").isPrefixOf
      (lc "\n<observation>" ++ (lc "Error converting DataFrame: " ++ m ++
        lc "\n</observation>\n")) = true
    exact isPrefixOf_append_self _ _
  case _ =>
    rw [List.isSuffixOf_iff_suffix]
    show lc "\n</observation>\n" <:+
      lc "\n<observation>Error converting DataFrame: " ++ m ++ lc "\n</observation>\n"
    exact List.IsSuffix.trans (by decide)
      (List.suffix_append (lc "\n<observation>Error converting DataFrame: " ++ m)
        (lc "\n</observation>\n"))
  case _ =>
    show countSub ('[' :: lc "TABLE:")
      (lc "\n<observation>\n" ++ ('[' :: lc "TABLE:") ++ (j ++ lc "]\n</observation>\n")) = 1
    have hfree : '[' ∉ j ++ lc "]\n</observation>\n" := by
      intro h
      rcases List.mem_append.mp h with h1 | h1
      · exact hj h1
      · exact absurd h1 (by decide)
    exact countSub_once (by decide) (by decide) hfree
  case _ =>
    show (lc "\n<observation>\n").isPrefixOf
      (lc "\n<observation>\n" ++ (lc "[TABLE:" ++ j ++ lc "]\n</observation>\n")) = true
    exact isPrefixOf_append_self _ _
  case _ =>
    show countSub ('[' :: lc "TABLE:")
      (lc "\n<observation>Error converting DataFrame: " ++
        (m ++ lc "\n</observation>\n")) = 0
    rw [countSub_append_free _ (by decide), countSub_append_free _ hm]
    decide
  case _ =>
    show (lc "\n<observation>\n").isPrefixOf
      (lc "\n<observation>Error converting DataFrame: " ++
        (m ++ lc "\n</observation>\n")) = false
    exact isPrefixOf_take_ne _ (by decide) (by decide)

/-- Witness for `C10_amended_wrap_dataframe_shape` at a concrete empty-table
serialization and a concrete error message. -/
theorem C10_amended_witness :
    ('[' ∉ lc "\x7b\x7d" ∧ '[' ∉ lc "boom") ∧
    (countSub (lc "[TABLE:") (wrap_dataframe (.ok (lc "\x7b\x7d"))) = 1 ∧
      countSub (lc "[TABLE:") (wrap_dataframe (.error (lc "boom"))) = 0 ∧
      (lc "\n<observation>\n").isPrefixOf (wrap_dataframe (.error (lc "boom"))) = false) :=
  ⟨⟨by decide, by decide⟩,
    ⟨(C10_amended_wrap_dataframe_shape (lc "\x7b\x7d") (lc "boom")
        (by decide) (by decide)).2.2.2.2.1,
     (C10_amended_wrap_dataframe_shape (lc "\x7b\x7d") (lc "boom")
        (by decide) (by decide)).2.2.2.2.2.2.1,
     (C10_amended_wrap_dataframe_shape (lc "\x7b\x7d") (lc "boom")
        (by decide) (by decide)).2.2.2.2.2.2.2⟩⟩

end FinChat
